import Mathlib

/-!
Shallow embedding of the heading-estimation and calibration engine of
`true-compass` (`src/hooks/use-compass.ts` and the calibration logic of
`src/app/index.tsx`).  Floating-point numbers are modelled as real numbers;
JavaScript's truncated remainder `%`, `Math.sign`, `Math.round`,
`Math.atan2`, `Math.hypot` and `Math.sqrt` are modelled by the
corresponding exact operations on `ℝ`.
-/

open scoped Classical

noncomputable section

namespace Compass

/-- Truncation toward zero, as used by JavaScript's `%` operator. -/
def jsTrunc (r : ℝ) : ℤ := if 0 ≤ r then ⌊r⌋ else -⌊-r⌋

/-- JavaScript remainder `x % y`: `x - y * trunc (x / y)` (sign follows `x`). -/
def jsMod (x y : ℝ) : ℝ := x - y * jsTrunc (x / y)

/-- Mathematical (floored) modulus, used to state spec-side normalisation. -/
def floorMod (x y : ℝ) : ℝ := x - y * ⌊x / y⌋

/-- JavaScript `Math.round` (round half toward positive infinity). -/
def jsRound (x : ℝ) : ℤ := ⌊x + 1 / 2⌋

/-- JavaScript `Math.atan2 y x`: the argument of the point `(x, y)`. -/
def atan2 (y x : ℝ) : ℝ := Complex.arg ⟨x, y⟩

/-- Three-component sensor vector. -/
structure Vec3 where
  x : ℝ
  y : ℝ
  z : ℝ

/-- Euclidean magnitude of a vector, `Math.sqrt (x*x + y*y + z*z)`. -/
def vecMag (v : Vec3) : ℝ := Real.sqrt (v.x * v.x + v.y * v.y + v.z * v.z)

/-! ### Basic facts about `jsTrunc`, `jsMod` and `floorMod` -/

theorem jsTrunc_of_nonneg {r : ℝ} (h : 0 ≤ r) : jsTrunc r = ⌊r⌋ := by
  simp [jsTrunc, h]

theorem jsTrunc_neg (r : ℝ) : jsTrunc (-r) = -jsTrunc r := by
  rcases lt_trichotomy r 0 with h | h | h
  · have h1 : ¬ (0:ℝ) ≤ r := not_le.mpr h
    have h2 : (0:ℝ) ≤ -r := by linarith
    simp [jsTrunc, h1, h2]
  · simp [h, jsTrunc]
  · have h1 : (0:ℝ) ≤ r := le_of_lt h
    have h2 : ¬ (0:ℝ) ≤ -r := by
      push_neg; linarith
    simp [jsTrunc, h1, h2]

theorem jsMod_neg (x y : ℝ) : jsMod (-x) y = -jsMod x y := by
  unfold jsMod
  rw [neg_div, jsTrunc_neg]
  push_cast
  ring

theorem jsMod_eq_floorMod {x : ℝ} (y : ℝ) (hx : 0 ≤ x) (hy : 0 ≤ y) :
    jsMod x y = floorMod x y := by
  unfold jsMod floorMod
  rw [jsTrunc_of_nonneg (div_nonneg hx hy)]

theorem floorMod_eq_fract {x y : ℝ} (hy : y ≠ 0) :
    floorMod x y = y * Int.fract (x / y) := by
  have h : y * (x / y) = x := by field_simp
  unfold floorMod Int.fract
  rw [mul_sub, h]

theorem floorMod_nonneg {x y : ℝ} (hy : 0 < y) : 0 ≤ floorMod x y := by
  rw [floorMod_eq_fract hy.ne.symm]
  exact mul_nonneg hy.le (Int.fract_nonneg _)

theorem floorMod_lt {x y : ℝ} (hy : 0 < y) : floorMod x y < y := by
  rw [floorMod_eq_fract hy.ne.symm]
  nlinarith [Int.fract_lt_one (x / y)]

theorem floorMod_small {x y : ℝ} (h0 : 0 ≤ x) (hxy : x < y) : floorMod x y = x := by
  have hy : (0:ℝ) < y := lt_of_le_of_lt h0 hxy
  have : ⌊x / y⌋ = 0 := by
    rw [Int.floor_eq_zero_iff]
    constructor
    · exact div_nonneg h0 hy.le
    · rw [div_lt_one hy]; exact hxy
  unfold floorMod
  rw [this]
  simp

theorem floorMod_sub_int (x y : ℝ) (k : ℤ) (hy : y ≠ 0) :
    floorMod (x - y * k) y = floorMod x y := by
  rw [floorMod_eq_fract hy, floorMod_eq_fract hy]
  have h : (x - y * k) / y = x / y - k := by
    field_simp
  rw [h, Int.fract_sub_int]

theorem jsMod_small {x y : ℝ} (h0 : 0 ≤ x) (hxy : x < y) : jsMod x y = x := by
  have hy : (0:ℝ) < y := lt_of_le_of_lt h0 hxy
  rw [jsMod_eq_floorMod y h0 hy.le]
  exact floorMod_small h0 hxy

theorem jsMod_small_neg {x y : ℝ} (hlo : -y < x) (hhi : x < 0) : jsMod x y = x := by
  have : jsMod (-(-x)) y = -jsMod (-x) y := jsMod_neg (-x) y
  rw [neg_neg] at this
  rw [this, jsMod_small (by linarith) (by linarith)]
  ring

/-- JavaScript double-mod normalisation `((x % 360) + 360) % 360` agrees with the
mathematical floored modulus. -/
theorem jsNormalize_eq_floorMod (x : ℝ) :
    jsMod (jsMod x 360 + 360) 360 = floorMod x 360 := by
  rcases le_or_lt 0 x with hx | hx
  · rw [jsMod_eq_floorMod 360 hx (by norm_num)]
    have h0 : 0 ≤ floorMod x 360 := floorMod_nonneg (by norm_num)
    have h1 : floorMod x 360 < 360 := floorMod_lt (by norm_num)
    rw [jsMod_eq_floorMod 360 (by linarith) (by norm_num)]
    have := floorMod_sub_int (floorMod x 360 + 360) 360 1 (by norm_num)
    simp only [Int.cast_one, mul_one, add_sub_cancel_right] at this
    rw [← this, floorMod_small h0 h1]
  · have hinner : jsMod x 360 = -floorMod (-x) 360 := by
      have h := jsMod_neg (-x) 360
      rw [neg_neg] at h
      rw [h, jsMod_eq_floorMod 360 (by linarith : (0:ℝ) ≤ -x) (by norm_num)]
    have h0 : 0 ≤ floorMod (-x) 360 := floorMod_nonneg (by norm_num)
    have h1 : floorMod (-x) 360 < 360 := floorMod_lt (by norm_num)
    have hf : floorMod (-x) 360 = 360 * Int.fract (-x / 360) :=
      floorMod_eq_fract (by norm_num : (360:ℝ) ≠ 0)
    rw [hinner]
    rcases eq_or_lt_of_le h0 with hz | hpos
    · -- here `-x` is an exact multiple of 360, hence so is `x`
      have hfr : Int.fract (-x / 360) = 0 := by nlinarith
      have hfrx : Int.fract (x / 360) = 0 := by
        have hneg : Int.fract (-(x / 360)) = 0 := by
          rw [← neg_div]; exact hfr
        rcases eq_or_ne (Int.fract (x / 360)) 0 with h | h
        · exact h
        · rw [Int.fract_neg h] at hneg
          have := Int.fract_lt_one (x / 360)
          nlinarith
      have hx0 : floorMod x 360 = 0 := by
        rw [floorMod_eq_fract (by norm_num : (360:ℝ) ≠ 0), hfrx]
        ring
      rw [hx0, ← hz]
      norm_num [jsMod, jsTrunc]
    · -- the generic negative case
      have harg0 : (0:ℝ) ≤ -floorMod (-x) 360 + 360 := by linarith
      have harg1 : -floorMod (-x) 360 + 360 < 360 := by linarith
      rw [jsMod_small harg0 harg1]
      have hfr_ne : Int.fract (-x / 360) ≠ 0 := by
        intro h
        rw [h] at hf
        nlinarith
      have hflip : Int.fract (x / 360) = 1 - Int.fract (-x / 360) := by
        have h := Int.fract_neg (x := -x / 360) hfr_ne
        rw [neg_div, neg_neg] at h
        rw [← neg_div] at h
        linarith
      have hx360 : floorMod x 360 = 360 * (1 - Int.fract (-x / 360)) := by
        rw [floorMod_eq_fract (by norm_num : (360:ℝ) ≠ 0), hflip]
      rw [hx360]
      linarith

theorem jsMod_abs_lt {x y : ℝ} (hy : 0 < y) : -y < jsMod x y ∧ jsMod x y < y := by
  rcases le_or_lt 0 x with hx | hx
  · rw [jsMod_eq_floorMod y hx hy.le]
    constructor
    · linarith [floorMod_nonneg (x := x) hy]
    · exact floorMod_lt hy
  · have hneg : jsMod x y = -jsMod (-x) y := by
      have := jsMod_neg (-x) y
      rw [neg_neg] at this
      linarith
    rw [hneg, jsMod_eq_floorMod y (by linarith) hy.le]
    constructor
    · linarith [floorMod_lt (x := -x) hy]
    · linarith [floorMod_nonneg (x := -x) hy]

/-! ### Heading resolver and circular smoother (`src/hooks/use-compass.ts`) -/

/-- Flat-device heading formula `calculateHeading` (lines 82–92):
`90 - atan2(y, x)·180/π`, reduced with the JS `%` operator and shifted into
`[0, 360)`. -/
def calculateHeading (x y _z : ℝ) : ℝ :=
  let heading := 90 - atan2 y x * 180 / Real.pi
  let heading := jsMod heading 360
  if heading < 0 then heading + 360 else heading

namespace SmoothingFilter

/-- One step of `SmoothingFilter.add` (lines 50–75): push the value, evict the
oldest entry beyond `maxSize`, and return the new window together with the
circular mean of the window. -/
def add (maxSize : ℕ) (values : List ℝ) (value : ℝ) : List ℝ × ℝ :=
  let vs0 := values ++ [value]
  let vs := if maxSize < vs0.length then vs0.tail else vs0
  let sinSum := (vs.map fun angle => Real.sin (angle * Real.pi / 180)).sum
  let cosSum := (vs.map fun angle => Real.cos (angle * Real.pi / 180)).sum
  let avgAngle := atan2 (sinSum / vs.length) (cosSum / vs.length)
  let result := avgAngle * 180 / Real.pi
  (vs, if result < 0 then result + 360 else result)

end SmoothingFilter

/-- Circular mean as the spec words it: `atan2(mean(sin θᵢ), mean(cos θᵢ))·180/π`,
normalised to `[0,360)` (here by the canonical floored modulus). -/
def circularMeanSpec (l : List ℝ) : ℝ :=
  floorMod
    (atan2 ((l.map fun θ => Real.sin (θ * Real.pi / 180)).sum / l.length)
      ((l.map fun θ => Real.cos (θ * Real.pi / 180)).sum / l.length) * 180 / Real.pi)
    360

/-! ### Step limiter and rotation accumulator (lines 344–368) -/

/-- Shortest signed angular delta `((new - prev + 540) % 360) - 180`, shared by
the step limiter (line 348) and the rotation accumulator (line 364). -/
def shortestDelta (new prev : ℝ) : ℝ := jsMod (new - prev + 540) 360 - 180

/-- Maximum allowed per-update heading step (lines 349–355): default 45, 20 when
accuracy is below 50, clamped to 10 when the device is level, else to 15 when
tilt is known and below 25. -/
def maxStepOf (accuracy : ℝ) (isLevel : Option Bool) (tiltDeg : Option ℝ) : ℝ :=
  let m : ℝ := if accuracy < 50 then 20 else 45
  if isLevel = some true then min m 10
  else
    match tiltDeg with
    | some t => if t < 25 then min m 15 else m
    | none => m

/-- Step limiter (lines 344–361): clamp the smoothed heading to within
`maxStep` of the previous heading, re-normalising with the JS double-mod. -/
def stepLimit (prev smoothed accuracy : ℝ) (isLevel : Option Bool)
    (tiltDeg : Option ℝ) : ℝ :=
  let delta := shortestDelta smoothed prev
  let maxStep := maxStepOf accuracy isLevel tiltDeg
  if maxStep < |delta| then
    jsMod (jsMod (prev + Real.sign delta * maxStep) 360 + 360) 360
  else smoothed

/-- Step limiter as the spec words it: `δ = ((new − prev + 540) mod 360) − 180`
with the mathematical modulus, clamped to `maxStep` and normalised with the
mathematical modulus. -/
def stepLimitSpec (prev new accuracy : ℝ) (isLevel : Option Bool)
    (tiltDeg : Option ℝ) : ℝ :=
  let delta := floorMod (new - prev + 540) 360 - 180
  let maxStep := maxStepOf accuracy isLevel tiltDeg
  if maxStep < |delta| then floorMod (prev + Real.sign delta * maxStep) 360
  else new

/-- Rotation accumulator update (lines 362–368): on the first sample the
accumulator is set to the (limited) heading itself; afterwards the shortest
signed delta from the previous heading is added. -/
def rotationUpdate (prevHeading : Option ℝ) (accum limited : ℝ) : ℝ :=
  match prevHeading with
  | some prev => accum + shortestDelta limited prev
  | none => limited

/-! ### Range lemmas -/

theorem atan2_deg_mem (y x : ℝ) :
    -180 < atan2 y x * 180 / Real.pi ∧ atan2 y x * 180 / Real.pi ≤ 180 := by
  have hmem := Complex.arg_mem_Ioc ⟨x, y⟩
  rw [Set.mem_Ioc] at hmem
  obtain ⟨hlo, hhi⟩ := hmem
  have hπ : 0 < Real.pi := Real.pi_pos
  unfold atan2
  constructor
  · rw [lt_div_iff₀ hπ]
    nlinarith
  · rw [div_le_iff₀ hπ]
    nlinarith

theorem calculateHeading_mem (x y z : ℝ) :
    0 ≤ calculateHeading x y z ∧ calculateHeading x y z < 360 := by
  obtain ⟨hlo, hhi⟩ := atan2_deg_mem y x
  simp only [calculateHeading]
  rcases le_or_lt 0 (90 - atan2 y x * 180 / Real.pi) with hc | hc
  · rw [jsMod_small hc (by linarith), if_neg (not_lt.mpr hc)]
    constructor <;> linarith
  · rw [jsMod_small_neg (by linarith) hc, if_pos hc]
    constructor <;> linarith

theorem normHalf_mem {r : ℝ} (hlo : -180 < r) (hhi : r ≤ 180) :
    0 ≤ (if r < 0 then r + 360 else r) ∧ (if r < 0 then r + 360 else r) < 360 := by
  split_ifs with h
  · constructor <;> linarith
  · push_neg at h
    constructor <;> linarith

theorem smoothAdd_snd_mem (maxSize : ℕ) (values : List ℝ) (value : ℝ) :
    0 ≤ (SmoothingFilter.add maxSize values value).2 ∧
      (SmoothingFilter.add maxSize values value).2 < 360 := by
  obtain ⟨hlo, hhi⟩ := atan2_deg_mem
    (((if maxSize < (values ++ [value]).length then (values ++ [value]).tail
        else values ++ [value]).map fun angle =>
          Real.sin (angle * Real.pi / 180)).sum /
      (if maxSize < (values ++ [value]).length then (values ++ [value]).tail
        else values ++ [value]).length)
    (((if maxSize < (values ++ [value]).length then (values ++ [value]).tail
        else values ++ [value]).map fun angle =>
          Real.cos (angle * Real.pi / 180)).sum /
      (if maxSize < (values ++ [value]).length then (values ++ [value]).tail
        else values ++ [value]).length)
  exact normHalf_mem hlo hhi

theorem maxStepOf_mem (accuracy : ℝ) (isLevel : Option Bool) (tiltDeg : Option ℝ) :
    10 ≤ maxStepOf accuracy isLevel tiltDeg ∧ maxStepOf accuracy isLevel tiltDeg ≤ 45 := by
  unfold maxStepOf
  rcases isLevel with _ | b <;> rcases tiltDeg with _ | t <;>
    simp only [min_def] <;> split_ifs <;> norm_num

theorem stepLimit_mem (prev smoothed accuracy : ℝ) (isLevel : Option Bool)
    (tiltDeg : Option ℝ) (h0 : 0 ≤ smoothed) (h1 : smoothed < 360) :
    0 ≤ stepLimit prev smoothed accuracy isLevel tiltDeg ∧
      stepLimit prev smoothed accuracy isLevel tiltDeg < 360 := by
  simp only [stepLimit]
  split_ifs with h
  · rw [jsNormalize_eq_floorMod]
    exact ⟨floorMod_nonneg (by norm_num), floorMod_lt (by norm_num)⟩
  · exact ⟨h0, h1⟩

/-! ### Accuracy scorer components (lines 282–342) -/

/-- Field-strength score (lines 304–309). -/
def fieldScoreOf (m : ℝ) : ℝ :=
  if m ≤ 15 ∨ 90 ≤ m then 0
  else if m < 30 then 100 * ((m - 15) / 15)
  else if m ≤ 60 then 100
  else max 0 (100 - (m - 60) / 30 * 100)

/-- Stability score from the magnitude standard deviation (line 311). -/
def varianceScoreOf (stddev : ℝ) : ℝ := max 0 (100 - min 100 (stddev * 50))

/-- Tilt score (lines 328–333): defaults to 100 when tilt is unknown. -/
def tiltScoreOf (tiltDeg : Option ℝ) : ℝ :=
  match tiltDeg with
  | some t => max 0 (100 - max 0 (t - 15) * 3)
  | none => 100

/-- Tilt metrics computed from the conditioned accelerometer vector
(lines 313–326). -/
structure TiltInfo where
  rollDeg : Option ℝ
  pitchDeg : Option ℝ
  tiltDeg : Option ℝ
  isLevel : Option Bool

def tiltMetrics (accel : Option Vec3) : TiltInfo :=
  match accel with
  | none => ⟨none, none, none, none⟩
  | some a =>
    let roll := atan2 a.y a.z
    let pitch := atan2 (-a.x) (Real.sqrt (a.y * a.y + a.z * a.z))
    let rollDeg := roll * 180 / Real.pi
    let pitchDeg := pitch * 180 / Real.pi
    let tiltDeg := min 90 (Real.sqrt (rollDeg * rollDeg + pitchDeg * pitchDeg))
    ⟨some rollDeg, some pitchDeg, some tiltDeg, some (if tiltDeg < 7 then true else false)⟩

/-! ### Accel conditioner (lines 219–236) -/

/-- Low-pass-filtered accelerometer vector with α = 0.15 (lines 222–226); the
previous filtered vector defaults to the first raw sample. -/
def accelFiltered (accelLP : Option Vec3) (raw : Vec3) : Vec3 :=
  let alpha : ℝ := 0.15
  let prev := accelLP.getD raw
  ⟨alpha * raw.x + (1 - alpha) * prev.x, alpha * raw.y + (1 - alpha) * prev.y,
    alpha * raw.z + (1 - alpha) * prev.z⟩

/-- One step of the accelerometer listener (lines 219–236): low-pass filter and
normalise, substituting 1 for a zero norm (`Math.hypot(ax,ay,az) || 1`). -/
def accelStep (accelLP : Option Vec3) (raw : Vec3) : Vec3 :=
  let f := accelFiltered accelLP raw
  let norm0 := Real.sqrt (f.x * f.x + f.y * f.y + f.z * f.z)
  let norm := if norm0 = 0 then 1 else norm0
  ⟨f.x / norm, f.y / norm, f.z / norm⟩

/-! ### Heading resolver inside the magnetometer callback (lines 242–278) -/

/-- Raw heading from a magnetometer vector and the optional conditioned accel
vector: cross-product fusion, legacy roll/pitch tilt compensation, or the flat
formula when no accel data is available. -/
def resolveRawHeading (useCross : Bool) (accel : Option Vec3) (v : Vec3) : ℝ :=
  match accel with
  | some a =>
    if useCross then
      let ex0 := v.y * a.z - v.z * a.y
      let ey0 := v.z * a.x - v.x * a.z
      let ez0 := v.x * a.y - v.y * a.x
      let eNorm0 := Real.sqrt (ex0 * ex0 + ey0 * ey0 + ez0 * ez0)
      let eNorm := if eNorm0 = 0 then 1 else eNorm0
      let ex := ex0 / eNorm
      let ey := ey0 / eNorm
      let ez := ez0 / eNorm
      let nx := a.y * ez - a.z * ey
      let ny := a.z * ex - a.x * ez
      90 - atan2 ny nx * 180 / Real.pi
    else
      let roll := atan2 a.y a.z
      let pitch := atan2 (-a.x) (Real.sqrt (a.y * a.y + a.z * a.z))
      let xh := v.x * Real.cos pitch + v.z * Real.sin pitch
      let yh := v.x * Real.sin roll * Real.sin pitch + v.y * Real.cos roll -
        v.z * Real.sin roll * Real.cos pitch
      90 - atan2 yh xh * 180 / Real.pi
  | none => calculateHeading v.x v.y v.z

/-! ### Engine state and the per-sample magnetometer tick (lines 239–396) -/

/-- The session-scoped mutable refs of `useCompass`, gathered into one state. -/
structure EngineState where
  window : List ℝ
  accelLP : Option Vec3
  magHistory : List ℝ
  emaMag : Option ℝ
  displayAcc : ℝ
  rotationAccum : ℝ
  prevHeading : Option ℝ

/-- Initial refs of a fresh subscription; the accel listener may already have
run, so the conditioned accel vector is a parameter. -/
def initState (accel : Option Vec3) : EngineState :=
  ⟨[], accel, [], none, 0, 0, none⟩

/-- Emitted estimate (`CompassData`, lines 5–21). -/
structure CompassData where
  heading : ℤ
  accuracy : ℤ
  isCalibrated : Bool
  cardinalDirection : String
  cardinalAbbreviation : String
  rotationDeg : ℝ
  rollDeg : Option ℝ
  pitchDeg : Option ℝ
  tiltDeg : Option ℝ
  isLevel : Option Bool
  magX : ℝ
  magY : ℝ
  magZ : ℝ

/-- Cardinal-direction lookup (lines 94–109): checks North's wrap-around case
first, then the remaining sectors in order, with a North fallback. -/
def getCardinalDirection (heading : ℝ) : String × String :=
  if 337.5 ≤ heading ∨ heading ≤ 22.5 then ("North", "N")
  else if 22.5 ≤ heading ∧ heading < 67.5 then ("Northeast", "NE")
  else if 67.5 ≤ heading ∧ heading < 112.5 then ("East", "E")
  else if 112.5 ≤ heading ∧ heading < 157.5 then ("Southeast", "SE")
  else if 157.5 ≤ heading ∧ heading < 202.5 then ("South", "S")
  else if 202.5 ≤ heading ∧ heading < 247.5 then ("Southwest", "SW")
  else if 247.5 ≤ heading ∧ heading < 292.5 then ("West", "W")
  else if 292.5 ≤ heading ∧ heading < 337.5 then ("Northwest", "NW")
  else ("North", "N")

/-- One invocation of the magnetometer listener callback (lines 239–396):
resolve the raw heading, smooth it, score accuracy, apply the step limiter and
rotation accumulator, and emit a `CompassData`.  The callback ends in an
unconditional `setState`, so every processed sample emits an estimate. -/
def tick (axisFlipEW useCross : Bool) (s : EngineState) (v : Vec3) :
    EngineState × CompassData :=
  let rawHeading0 := resolveRawHeading useCross s.accelLP v
  let rawHeading1 := jsMod rawHeading0 360
  let rawHeading2 := if rawHeading1 < 0 then rawHeading1 + 360 else rawHeading1
  let rawHeading := if axisFlipEW then jsMod (360 - rawHeading2) 360 else rawHeading2
  let sm := SmoothingFilter.add 8 s.window rawHeading
  let magnitude := Real.sqrt (v.x * v.x + v.y * v.y + v.z * v.z)
  let magAlpha : ℝ := 0.1
  let emaMag' :=
    match s.emaMag with
    | none => magnitude
    | some e => magAlpha * magnitude + (1 - magAlpha) * e
  let hist0 := s.magHistory ++ [magnitude]
  let hist := if 60 < hist0.length then hist0.tail else hist0
  let mean := hist.sum / (max hist.length 1 : ℕ)
  let variance :=
    if 1 < hist.length then
      ((hist.map fun b => (b - mean) * (b - mean)).sum) / ((hist.length - 1 : ℕ) : ℝ)
    else 0
  let stddev := Real.sqrt variance
  let fieldScore := fieldScoreOf emaMag'
  let varianceScore := varianceScoreOf stddev
  let tilt := tiltMetrics s.accelLP
  let tiltScore := tiltScoreOf tilt.tiltDeg
  let accuracy0 := 0.5 * fieldScore + 0.3 * varianceScore + 0.2 * tiltScore
  let accAlpha : ℝ := 0.25
  let displayAcc' := accAlpha * accuracy0 + (1 - accAlpha) * s.displayAcc
  let accuracy := displayAcc'
  let smoothed :=
    match s.prevHeading with
    | none => sm.2
    | some prev => stepLimit prev sm.2 accuracy tilt.isLevel tilt.tiltDeg
  let rotationAccum' := rotationUpdate s.prevHeading s.rotationAccum smoothed
  let card := getCardinalDirection smoothed
  (⟨sm.1, s.accelLP, hist, some emaMag', displayAcc', rotationAccum', some smoothed⟩,
    ⟨jsRound smoothed, jsRound accuracy, if 60 < accuracy then true else false,
      card.1, card.2, rotationAccum', tilt.rollDeg, tilt.pitchDeg, tilt.tiltDeg,
      tilt.isLevel, v.x, v.y, v.z⟩)

/-! ### Calibration tracker (`src/app/index.tsx`, lines 264–326) -/

/-- Magnitudes of the collected calibration samples. -/
def calibMagnitudes (samples : List Vec3) : List ℝ :=
  samples.map fun s => Real.sqrt (s.x * s.x + s.y * s.y + s.z * s.z)

/-- Standard deviation of the calibration sample magnitudes
(population variance, lines 274–281). -/
def calibStddev (samples : List Vec3) : ℝ :=
  let magnitudes := calibMagnitudes samples
  let mean := magnitudes.sum / magnitudes.length
  Real.sqrt ((magnitudes.map fun b => (b - mean) * (b - mean)).sum / magnitudes.length)

/-- Variance bonus (lines 272–286): a flat 50 when at least 20 samples were
collected and their magnitude standard deviation lies in `[5, 20]`. -/
def calibBonus (samples : List Vec3) : ℝ :=
  if 20 ≤ samples.length then
    if 5 ≤ calibStddev samples ∧ calibStddev samples ≤ 20 then 50 else 0
  else 0

/-- Calibration progress (lines 267–289):
`min(100, min(100, regions/18·100) + bonus·0.5)`. -/
def calibrationProgress (regionCount : ℕ) (samples : List Vec3) : ℝ :=
  let coverageScore := min 100 ((regionCount : ℝ) / 18 * 100)
  min 100 (coverageScore + calibBonus samples * 0.5)

/-- Condition for advancing to the axis-check phase (line 292). -/
def calibAdvance (regionCount : ℕ) (samples : List Vec3) : Prop :=
  85 ≤ calibrationProgress regionCount samples ∧ 15 ≤ regionCount

/-- Axis-check completion (lines 313–326): once at least 20 samples were
accepted, the emitted flip decision is the constant `true`; before that nothing
is emitted. -/
def axisDecision (samples : List ℝ) : Option Bool :=
  if 20 ≤ samples.length then some true else none

/-! ### Evaluation helpers -/

theorem jsMod_eval {x y : ℝ} (k : ℤ) (h0 : 0 ≤ x) (hy : 0 < y)
    (hk : (k : ℝ) * y ≤ x) (hk2 : x < ((k : ℝ) + 1) * y) : jsMod x y = x - y * k := by
  have hfloor : ⌊x / y⌋ = k := by
    rw [Int.floor_eq_iff]
    constructor
    · rw [le_div_iff₀ hy]
      linarith
    · rw [div_lt_iff₀ hy]
      linarith
  unfold jsMod
  rw [jsTrunc_of_nonneg (div_nonneg h0 hy.le), hfloor]

theorem jsNormalize_small {x : ℝ} (h0 : 0 ≤ x) (h1 : x < 360) :
    jsMod (jsMod x 360 + 360) 360 = x := by
  rw [jsNormalize_eq_floorMod]
  exact floorMod_small h0 h1

theorem floorMod_of_neg_small {r : ℝ} (h0 : -360 < r) (h1 : r < 0) :
    floorMod r 360 = r + 360 := by
  have h := floorMod_sub_int (r + 360) 360 1 (by norm_num)
  rw [show (r + 360) - 360 * ((1 : ℤ) : ℝ) = r by norm_num] at h
  rw [h]
  exact floorMod_small (by linarith) (by linarith)

theorem shortestDelta_of_floorMod {p d : ℝ} (hp1 : p < 360)
    (hd0 : -180 < d) (hd1 : d < 180) :
    shortestDelta (floorMod (p + d) 360) p = d := by
  have hl0 : 0 ≤ floorMod (p + d) 360 := floorMod_nonneg (by norm_num)
  have hl1 : floorMod (p + d) 360 < 360 := floorMod_lt (by norm_num)
  unfold shortestDelta
  have harg : (0 : ℝ) ≤ floorMod (p + d) 360 - p + 540 := by linarith
  rw [jsMod_eq_floorMod 360 harg (by norm_num)]
  have hfm : floorMod (p + d) 360 = (p + d) - 360 * ⌊(p + d) / 360⌋ := rfl
  rw [hfm]
  rw [show (p + d) - 360 * (⌊(p + d) / 360⌋ : ℝ) - p + 540 =
    (d + 540) - 360 * (⌊(p + d) / 360⌋ : ℝ) by ring]
  rw [floorMod_sub_int _ 360 _ (by norm_num)]
  have h2 := floorMod_sub_int (d + 540) 360 1 (by norm_num)
  rw [show (d + 540) - 360 * ((1 : ℤ) : ℝ) = d + 180 by push_cast; ring] at h2
  rw [← h2, floorMod_small (by linarith) (by linarith)]
  ring

theorem atan2_eq_of_polar {y x r θ : ℝ} (hr : 0 < r) (hθlo : -Real.pi < θ)
    (hθhi : θ ≤ Real.pi) (hx : x = r * Real.cos θ) (hy : y = r * Real.sin θ) :
    atan2 y x = θ := by
  unfold atan2
  have hz : (⟨x, y⟩ : ℂ) = (r : ℂ) * (Complex.cos θ + Complex.sin θ * Complex.I) := by
    apply Complex.ext <;>
      simp [← Complex.ofReal_cos, ← Complex.ofReal_sin, hx, hy]
  rw [hz]
  exact Complex.arg_mul_cos_add_sin_mul_I hr ⟨hθlo, hθhi⟩

theorem atan2_zero_of_nonneg {c : ℝ} (h : 0 ≤ c) : atan2 0 c = 0 := by
  unfold atan2
  have hz : (⟨c, 0⟩ : ℂ) = (c : ℂ) := by
    apply Complex.ext <;> simp
  rw [hz]
  exact Complex.arg_ofReal_of_nonneg h

theorem atan2_pos_zero {m : ℝ} (h : 0 < m) : atan2 m 0 = Real.pi / 2 := by
  have hπ := Real.pi_pos
  apply atan2_eq_of_polar (r := m) h (by linarith) (by linarith)
  · rw [Real.cos_pi_div_two]
    ring
  · rw [Real.sin_pi_div_two]
    ring

theorem atan2_diag {c : ℝ} (h : 0 < c) : atan2 c c = Real.pi / 4 := by
  have hπ := Real.pi_pos
  have h2 : Real.sqrt 2 * Real.sqrt 2 = 2 := Real.mul_self_sqrt (by norm_num)
  have hs2 : 0 < Real.sqrt 2 := Real.sqrt_pos.mpr (by norm_num)
  apply atan2_eq_of_polar (r := c * Real.sqrt 2) (by positivity) (by linarith) (by linarith)
  · rw [Real.cos_pi_div_four]
    field_simp
    nlinarith
  · rw [Real.sin_pi_div_four]
    field_simp
    nlinarith

theorem jsRound_eval {x : ℝ} (k : ℤ) (h0 : (k : ℝ) ≤ x + 1 / 2)
    (h1 : x + 1 / 2 < (k : ℝ) + 1) : jsRound x = k := by
  unfold jsRound
  rw [Int.floor_eq_iff]
  exact ⟨h0, h1⟩

/-! ### Bounds on the accuracy scorer components -/

theorem fieldScoreOf_mem (m : ℝ) : 0 ≤ fieldScoreOf m ∧ fieldScoreOf m ≤ 100 := by
  unfold fieldScoreOf
  split_ifs with h1 h2 h3
  · norm_num
  · push_neg at h1
    constructor
    · have : (0:ℝ) ≤ (m - 15) / 15 := by linarith [h1.1]
      nlinarith
    · nlinarith [h1.1, h2]
  · norm_num
  · push_neg at h1 h3
    constructor
    · exact le_max_left 0 _
    · rw [max_le_iff]
      constructor
      · norm_num
      · nlinarith [h3]

theorem varianceScoreOf_mem {sd : ℝ} (h : 0 ≤ sd) :
    0 ≤ varianceScoreOf sd ∧ varianceScoreOf sd ≤ 100 := by
  unfold varianceScoreOf
  constructor
  · exact le_max_left 0 _
  · rw [max_le_iff]
    constructor
    · norm_num
    · have : (0:ℝ) ≤ min 100 (sd * 50) := le_min (by norm_num) (by nlinarith)
      linarith

theorem tiltScoreOf_mem (t : Option ℝ) : 0 ≤ tiltScoreOf t ∧ tiltScoreOf t ≤ 100 := by
  unfold tiltScoreOf
  rcases t with _ | t
  · norm_num
  · constructor
    · exact le_max_left 0 _
    · rw [max_le_iff]
      constructor
      · norm_num
      · have : (0:ℝ) ≤ max 0 (t - 15) * 3 := by positivity
        linarith

/-! ### Claim theorems -/

/-- C1: every heading the engine produces is in the half-open range `[0, 360)`:
`calculateHeading` for every magnetometer input, the circularly smoothed
heading returned by `SmoothingFilter.add`, and the step-limited heading. -/
theorem heading_range_inv :
    (∀ x y z : ℝ, 0 ≤ calculateHeading x y z ∧ calculateHeading x y z < 360) ∧
    (∀ (n : ℕ) (w : List ℝ) (v : ℝ),
      0 ≤ (SmoothingFilter.add n w v).2 ∧ (SmoothingFilter.add n w v).2 < 360) ∧
    (∀ (prev s acc : ℝ) (lvl : Option Bool) (t : Option ℝ), 0 ≤ s → s < 360 →
      0 ≤ stepLimit prev s acc lvl t ∧ stepLimit prev s acc lvl t < 360) :=
  ⟨calculateHeading_mem, smoothAdd_snd_mem,
    fun prev s acc lvl t h0 h1 => stepLimit_mem prev s acc lvl t h0 h1⟩

/-- Witness for C1: the step-limited-heading bound instantiated at a concrete
smoothed heading of 10° in range. -/
theorem heading_range_inv_witness :
    (0 : ℝ) ≤ 10 ∧ (10 : ℝ) < 360 ∧
      0 ≤ stepLimit 0 10 70 none none ∧ stepLimit 0 10 70 none none < 360 := by
  obtain ⟨h1, h2⟩ := heading_range_inv.2.2 0 10 70 none none (by norm_num) (by norm_num)
  exact ⟨by norm_num, by norm_num, h1, h2⟩

/-- C2: the step limiter clamps the shortest signed delta to `maxStep`
(default 45, 20 when accuracy < 50, further 10 when level, else 15 when tilt
is known and < 25), agreeing with the spec's mathematical-modulus wording for
in-range headings; `prev=0, new=170, accuracy=70, isLevel=false, tiltDeg=30`
gives 45, and the same inputs with `isLevel=true` give 10. -/
theorem stepLimit_spec :
    (∀ (prev s acc : ℝ) (lvl : Option Bool) (t : Option ℝ),
      0 ≤ prev → prev < 360 → 0 ≤ s →
      stepLimit prev s acc lvl t = stepLimitSpec prev s acc lvl t) ∧
    stepLimit 0 170 70 (some false) (some 30) = 45 ∧
    stepLimit 0 170 70 (some true) (some 30) = 10 := by
  have hδ : shortestDelta 170 0 = 170 := by
    unfold shortestDelta
    rw [show (170 : ℝ) - 0 + 540 = 710 by norm_num]
    rw [jsMod_eval 1 (by norm_num) (by norm_num) (by norm_num) (by norm_num)]
    norm_num
  have habs : |(170 : ℝ)| = 170 := by
    rw [abs_of_pos (by norm_num : (0:ℝ) < 170)]
  have hsgn : Real.sign (170 : ℝ) = 1 := Real.sign_of_pos (by norm_num)
  refine ⟨?_, ?_, ?_⟩
  · intro prev s acc lvl t h0 h1 h2
    simp only [stepLimit, stepLimitSpec, shortestDelta]
    rw [jsMod_eq_floorMod 360 (by linarith) (by norm_num), jsNormalize_eq_floorMod]
  · have hm : maxStepOf 70 (some false) (some 30) = 45 := by
      norm_num [maxStepOf]
    simp only [stepLimit]
    rw [hδ, hm, if_pos (by rw [habs]; norm_num), hsgn,
      show (0 : ℝ) + 1 * 45 = 45 by norm_num]
    exact jsNormalize_small (by norm_num) (by norm_num)
  · have hm : maxStepOf 70 (some true) (some 30) = 10 := by
      norm_num [maxStepOf]
    simp only [stepLimit]
    rw [hδ, hm, if_pos (by rw [habs]; norm_num), hsgn,
      show (0 : ℝ) + 1 * 10 = 10 by norm_num]
    exact jsNormalize_small (by norm_num) (by norm_num)

/-- Witness for C2: the step-limiter/spec agreement instantiated at the
concrete inputs of the first worked example. -/
theorem stepLimit_spec_witness :
    (0 : ℝ) ≤ 0 ∧ (0 : ℝ) < 360 ∧ (0 : ℝ) ≤ 170 ∧
      stepLimit 0 170 70 (some false) (some 30) =
        stepLimitSpec 0 170 70 (some false) (some 30) := by
  refine ⟨by norm_num, by norm_num, by norm_num, ?_⟩
  exact stepLimit_spec.1 0 170 70 (some false) (some 30) (by norm_num) (by norm_num)
    (by norm_num)

/-- C3: the rotation accumulator is initialised to the heading itself on the
first sample; each later update changes it by exactly the shortest signed
delta (in `[-180, 180]` for in-range headings) between the limited new heading
and the previous one, hence never by more than the step-limiter bound; the
sequence 350° then 10° increases it by +20. -/
theorem rotation_accumulator_spec :
    (∀ a h : ℝ, rotationUpdate none a h = h) ∧
    (∀ p a l : ℝ, rotationUpdate (some p) a l - a = shortestDelta l p) ∧
    (∀ p l : ℝ, 0 ≤ p → p < 360 → 0 ≤ l → l < 360 →
      -180 ≤ shortestDelta l p ∧ shortestDelta l p ≤ 180) ∧
    (∀ (p s acc a : ℝ) (lvl : Option Bool) (t : Option ℝ),
      0 ≤ p → p < 360 → 0 ≤ s → s < 360 →
      |rotationUpdate (some p) a (stepLimit p s acc lvl t) - a| ≤
        maxStepOf acc lvl t) ∧
    (∀ a : ℝ, rotationUpdate (some 350) a 10 = a + 20) := by
  have hpart2 : ∀ p a l : ℝ, rotationUpdate (some p) a l - a = shortestDelta l p := by
    intro p a l
    simp [rotationUpdate]
  refine ⟨?_, hpart2, ?_, ?_, ?_⟩
  · intro a h
    simp [rotationUpdate]
  · intro p l hp0 hp1 hl0 hl1
    unfold shortestDelta
    rw [jsMod_eq_floorMod 360 (by linarith) (by norm_num)]
    have h0 := floorMod_nonneg (x := l - p + 540) (y := 360) (by norm_num)
    have h1 := floorMod_lt (x := l - p + 540) (y := 360) (by norm_num)
    constructor <;> linarith
  · intro p s acc a lvl t hp0 hp1 hs0 hs1
    rw [hpart2]
    obtain ⟨hm10, hm45⟩ := maxStepOf_mem acc lvl t
    by_cases hclamp : maxStepOf acc lvl t < |shortestDelta s p|
    · have hsl : stepLimit p s acc lvl t =
          floorMod (p + Real.sign (shortestDelta s p) * maxStepOf acc lvl t) 360 := by
        simp only [stepLimit]
        rw [if_pos hclamp, jsNormalize_eq_floorMod]
      have hδne : shortestDelta s p ≠ 0 := by
        intro h
        rw [h] at hclamp
        simp at hclamp
        linarith
      rcases hδne.lt_or_lt with hneg | hpos
      · rw [hsl, Real.sign_of_neg hneg,
          shortestDelta_of_floorMod hp1 (by linarith) (by linarith),
          neg_one_mul, abs_neg, abs_of_nonneg (by linarith)]
      · rw [hsl, Real.sign_of_pos hpos,
          shortestDelta_of_floorMod hp1 (by linarith) (by linarith),
          one_mul, abs_of_nonneg (by linarith)]
    · have hsl : stepLimit p s acc lvl t = s := by
        simp only [stepLimit]
        rw [if_neg hclamp]
      rw [hsl]
      push_neg at hclamp
      exact hclamp
  · intro a
    simp only [rotationUpdate]
    unfold shortestDelta
    rw [show (10 : ℝ) - 350 + 540 = 200 by norm_num,
      jsMod_small (by norm_num) (by norm_num)]
    norm_num

/-- Witness for C3: the delta-bound parts instantiated at previous heading 0°,
limited heading 10°, accuracy 70 and no tilt data. -/
theorem rotation_accumulator_spec_witness :
    (0 : ℝ) ≤ 0 ∧ (0 : ℝ) < 360 ∧ (0 : ℝ) ≤ 10 ∧ (10 : ℝ) < 360 ∧
      (-180 ≤ shortestDelta 10 0 ∧ shortestDelta 10 0 ≤ 180) ∧
      |rotationUpdate (some 0) 5 (stepLimit 0 10 70 none none) - 5| ≤
        maxStepOf 70 none none := by
  refine ⟨by norm_num, by norm_num, by norm_num, by norm_num, ?_, ?_⟩
  · exact rotation_accumulator_spec.2.2.1 0 10 (by norm_num) (by norm_num)
      (by norm_num) (by norm_num)
  · exact rotation_accumulator_spec.2.2.2.1 0 10 70 5 none none (by norm_num)
      (by norm_num) (by norm_num) (by norm_num)

/-- C6: the axis-check decision is independent of the collected samples: any
run with at least 20 accepted samples emits `true`, and any two such runs
agree regardless of their data. -/
theorem axisDecision_const :
    ∀ s1 s2 : List ℝ, 20 ≤ s1.length → 20 ≤ s2.length →
      axisDecision s1 = some true ∧ axisDecision s1 = axisDecision s2 := by
  intro s1 s2 h1 h2
  unfold axisDecision
  rw [if_pos h1, if_pos h2]
  exact ⟨rfl, rfl⟩

/-- Witness for C6: two runs with 20 samples of completely different heading
data produce the same decision `true`. -/
theorem axisDecision_const_witness :
    20 ≤ (List.replicate 20 (0 : ℝ)).length ∧
      20 ≤ (List.replicate 20 (180 : ℝ)).length ∧
      axisDecision (List.replicate 20 (0 : ℝ)) = some true ∧
      axisDecision (List.replicate 20 (0 : ℝ)) =
        axisDecision (List.replicate 20 (180 : ℝ)) := by
  obtain ⟨h1, h2⟩ := axisDecision_const (List.replicate 20 (0 : ℝ))
    (List.replicate 20 (180 : ℝ)) (by simp) (by simp)
  exact ⟨by simp, by simp, h1, h2⟩

theorem normHalf_eq_floorMod {r : ℝ} (hlo : -180 < r) (hhi : r ≤ 180) :
    (if r < 0 then r + 360 else r) = floorMod r 360 := by
  split_ifs with h
  · rw [floorMod_of_neg_small (by linarith) h]
  · push_neg at h
    rw [floorMod_small h (by linarith)]

theorem smoothAdd_snd_eq_spec (n : ℕ) (w : List ℝ) (v : ℝ) :
    (SmoothingFilter.add n w v).2 = circularMeanSpec (SmoothingFilter.add n w v).1 := by
  obtain ⟨hlo, hhi⟩ := atan2_deg_mem
    (((if n < (w ++ [v]).length then (w ++ [v]).tail else w ++ [v]).map fun angle =>
        Real.sin (angle * Real.pi / 180)).sum /
      (if n < (w ++ [v]).length then (w ++ [v]).tail else w ++ [v]).length)
    (((if n < (w ++ [v]).length then (w ++ [v]).tail else w ++ [v]).map fun angle =>
        Real.cos (angle * Real.pi / 180)).sum /
      (if n < (w ++ [v]).length then (w ++ [v]).tail else w ++ [v]).length)
  exact normHalf_eq_floorMod hlo hhi

/-- C4: the circular smoother keeps at most 8 headings with FIFO eviction, and
returns the circular mean `atan2(mean sin, mean cos)·180/π` of the window
normalised to `[0, 360)`; the circular mean of the window `[350°, 10°]` is
exactly 0°. -/
theorem smoother_spec :
    (∀ (w : List ℝ) (v : ℝ), w.length ≤ 8 →
      (SmoothingFilter.add 8 w v).1 =
        (if w.length = 8 then w.tail ++ [v] else w ++ [v]) ∧
      (SmoothingFilter.add 8 w v).1.length ≤ 8) ∧
    (∀ (w : List ℝ) (v : ℝ),
      (SmoothingFilter.add 8 w v).2 =
        circularMeanSpec (SmoothingFilter.add 8 w v).1) ∧
    (SmoothingFilter.add 8 [350] 10).2 = 0 := by
  refine ⟨?_, fun w v => smoothAdd_snd_eq_spec 8 w v, ?_⟩
  · intro w v hw
    by_cases h8 : w.length = 8
    · have hcond : 8 < (w ++ [v]).length := by
        rw [List.length_append, List.length_singleton, h8]
        norm_num
      have hfst : (SmoothingFilter.add 8 w v).1 = (w ++ [v]).tail := by
        simp only [SmoothingFilter.add]
        rw [if_pos hcond]
      have htail : (w ++ [v]).tail = w.tail ++ [v] := by
        cases w with
        | nil => simp at h8
        | cons a w' => simp
      constructor
      · rw [hfst, htail, if_pos h8]
      · rw [hfst, htail]
        cases w with
        | nil => simp at h8
        | cons a w' =>
          simp only [List.length_cons] at h8
          simp only [List.tail_cons, List.length_append, List.length_singleton]
          omega
    · have hcond : ¬ 8 < (w ++ [v]).length := by
        rw [List.length_append, List.length_singleton]
        omega
      have hfst : (SmoothingFilter.add 8 w v).1 = w ++ [v] := by
        simp only [SmoothingFilter.add]
        rw [if_neg hcond]
      constructor
      · rw [hfst, if_neg h8]
      · rw [hfst, List.length_append, List.length_singleton]
        omega
  · have hπ := Real.pi_pos
    have h350 : Real.sin (350 * Real.pi / 180) = -Real.sin (10 * Real.pi / 180) := by
      rw [show (350 : ℝ) * Real.pi / 180 = 2 * Real.pi - 10 * Real.pi / 180 by ring]
      exact Real.sin_two_pi_sub _
    have hc350 : Real.cos (350 * Real.pi / 180) = Real.cos (10 * Real.pi / 180) := by
      rw [show (350 : ℝ) * Real.pi / 180 = 2 * Real.pi - 10 * Real.pi / 180 by ring]
      exact Real.cos_two_pi_sub _
    have hcpos : 0 < Real.cos (10 * Real.pi / 180) := by
      apply Real.cos_pos_of_mem_Ioo
      constructor
      · nlinarith
      · nlinarith
    have hcond : ¬ ((8 : ℕ) < 0 + 1 + 1) := by norm_num
    simp only [SmoothingFilter.add, List.cons_append, List.nil_append, List.length_cons,
      List.length_nil, hcond, if_false]
    simp only [List.map_cons, List.map_nil, List.sum_cons, List.sum_nil, List.length_cons,
      List.length_nil]
    rw [h350, hc350]
    rw [show -Real.sin (10 * Real.pi / 180) + (Real.sin (10 * Real.pi / 180) + 0) = 0
        by ring]
    rw [show ((0 : ℕ) + 1 + 1 : ℕ) = 2 by norm_num]
    rw [show (0 : ℝ) / (2 : ℕ) = 0 by norm_num]
    have hc2 : 0 ≤ (Real.cos (10 * Real.pi / 180) +
        (Real.cos (10 * Real.pi / 180) + 0)) / (2 : ℕ) := by
      positivity
    rw [atan2_zero_of_nonneg hc2]
    norm_num

/-- Witness for C4: the FIFO bound instantiated at a full window of eight
headings. -/
theorem smoother_spec_witness :
    ([0, 45, 90, 135, 180, 225, 270, 315] : List ℝ).length ≤ 8 ∧
      (SmoothingFilter.add 8 [0, 45, 90, 135, 180, 225, 270, 315] 10).1 =
        [45, 90, 135, 180, 225, 270, 315, 10] ∧
      (SmoothingFilter.add 8 [0, 45, 90, 135, 180, 225, 270, 315] 10).1.length ≤ 8 := by
  obtain ⟨h1, h2⟩ := smoother_spec.1 ([0, 45, 90, 135, 180, 225, 270, 315] : List ℝ) 10
    (by norm_num)
  refine ⟨by norm_num, ?_, h2⟩
  rw [h1]
  norm_num

/-- C5: calibration progress is `min(100, coverage + 0.5·bonus)` with coverage
`min(100, 100·regions/18)` and a flat bonus of 50 exactly when at least 20
samples were collected with magnitude standard deviation in `[5, 20]`;
18 regions with stddev 10 give 100, 9 regions with no bonus give 50, and the
tracker advances exactly when progress ≥ 85 and at least 15 regions are
covered. -/
theorem calibration_progress_spec :
    (∀ samples : List Vec3, calibBonus samples = 0 ∨ calibBonus samples = 50) ∧
    (∀ samples : List Vec3, calibBonus samples = 50 ↔
      20 ≤ samples.length ∧ 5 ≤ calibStddev samples ∧ calibStddev samples ≤ 20) ∧
    (∀ samples : List Vec3, 20 ≤ samples.length → calibStddev samples = 10 →
      calibrationProgress 18 samples = 100) ∧
    (∀ samples : List Vec3, calibBonus samples = 0 →
      calibrationProgress 9 samples = 50) ∧
    (∀ (rc : ℕ) (samples : List Vec3), calibAdvance rc samples ↔
      85 ≤ calibrationProgress rc samples ∧ 15 ≤ rc) := by
  have hpart2 : ∀ samples : List Vec3, calibBonus samples = 50 ↔
      20 ≤ samples.length ∧ 5 ≤ calibStddev samples ∧ calibStddev samples ≤ 20 := by
    intro samples
    unfold calibBonus
    split_ifs with h1 h2
    · exact iff_of_true rfl ⟨h1, h2.1, h2.2⟩
    · constructor
      · intro h
        norm_num at h
      · rintro ⟨-, h5, h20⟩
        exact absurd ⟨h5, h20⟩ h2
    · constructor
      · intro h
        norm_num at h
      · rintro ⟨hl, -⟩
        exact absurd hl h1
  refine ⟨?_, hpart2, ?_, ?_, fun rc samples => Iff.rfl⟩
  · intro samples
    unfold calibBonus
    split_ifs <;> simp
  · intro samples hlen hsd
    have hb : calibBonus samples = 50 :=
      (hpart2 samples).mpr ⟨hlen, by rw [hsd]; norm_num, by rw [hsd]; norm_num⟩
    unfold calibrationProgress
    rw [hb]
    norm_num [min_def]
  · intro samples hb
    unfold calibrationProgress
    rw [hb]
    norm_num [min_def]

/-- Concrete calibration run used as the C5 witness: ten samples of magnitude
40 and ten of magnitude 60, whose magnitude stddev is exactly 10. -/
def calibSamplesA : List Vec3 :=
  List.replicate 10 ⟨40, 0, 0⟩ ++ List.replicate 10 ⟨60, 0, 0⟩

theorem calibSamplesA_stddev : calibStddev calibSamplesA = 10 := by
  have h40 : Real.sqrt ((40 : ℝ) * 40 + 0 * 0 + 0 * 0) = 40 := by
    rw [show (40 : ℝ) * 40 + 0 * 0 + 0 * 0 = 40 ^ 2 by norm_num,
      Real.sqrt_sq (by norm_num : (0:ℝ) ≤ 40)]
  have h60 : Real.sqrt ((60 : ℝ) * 60 + 0 * 0 + 0 * 0) = 60 := by
    rw [show (60 : ℝ) * 60 + 0 * 0 + 0 * 0 = 60 ^ 2 by norm_num,
      Real.sqrt_sq (by norm_num : (0:ℝ) ≤ 60)]
  simp only [calibStddev, calibMagnitudes, calibSamplesA, List.map_append,
    List.map_replicate, h40, h60, List.sum_append, List.sum_replicate,
    List.length_append, List.length_replicate, nsmul_eq_mul]
  norm_num
  rw [show (100 : ℝ) = 10 ^ 2 by norm_num, Real.sqrt_sq (by norm_num : (0:ℝ) ≤ 10)]

/-- Witness for C5: the concrete run `calibSamplesA` has 20 samples with
stddev 10, achieving progress 100 at 18 regions, while an empty run gives
progress 50 at 9 regions. -/
theorem calibration_progress_spec_witness :
    20 ≤ calibSamplesA.length ∧ calibStddev calibSamplesA = 10 ∧
      calibrationProgress 18 calibSamplesA = 100 ∧
      calibBonus ([] : List Vec3) = 0 ∧
      calibrationProgress 9 ([] : List Vec3) = 50 := by
  have hlen : 20 ≤ calibSamplesA.length := by
    simp [calibSamplesA]
  have hb0 : calibBonus ([] : List Vec3) = 0 := by
    simp [calibBonus]
  refine ⟨hlen, calibSamplesA_stddev, ?_, hb0, ?_⟩
  · exact calibration_progress_spec.2.2.1 calibSamplesA hlen calibSamplesA_stddev
  · exact calibration_progress_spec.2.2.2.1 ([] : List Vec3) hb0

/-- C8 counterexample: a first accelerometer sample equal to the zero vector
is conditioned to the zero vector itself, whose norm is 0, not 1 — the
`|| 1` guard avoids the division by zero but does not yield a unit vector. -/
theorem accel_unit_counterexample :
    accelStep none ⟨0, 0, 0⟩ = ⟨0, 0, 0⟩ ∧ vecMag (accelStep none ⟨0, 0, 0⟩) ≠ 1 := by
  have hf : accelFiltered none ⟨0, 0, 0⟩ = ⟨0, 0, 0⟩ := by
    simp only [accelFiltered, Option.getD_none]
    norm_num
  have hstep : accelStep none ⟨0, 0, 0⟩ = ⟨0, 0, 0⟩ := by
    simp only [accelStep, hf]
    norm_num
  refine ⟨hstep, ?_⟩
  rw [hstep]
  unfold vecMag
  norm_num

/-- C8 amended: whenever the low-pass-filtered accelerometer vector has
nonzero norm, the conditioned output is a unit vector. -/
theorem accelStep_unit_of_nonzero (prev : Option Vec3) (raw : Vec3)
    (h : vecMag (accelFiltered prev raw) ≠ 0) : vecMag (accelStep prev raw) = 1 := by
  have hS : 0 ≤ (accelFiltered prev raw).x * (accelFiltered prev raw).x +
      (accelFiltered prev raw).y * (accelFiltered prev raw).y +
      (accelFiltered prev raw).z * (accelFiltered prev raw).z := by
    nlinarith [sq_nonneg (accelFiltered prev raw).x, sq_nonneg (accelFiltered prev raw).y,
      sq_nonneg (accelFiltered prev raw).z]
  have hne : Real.sqrt ((accelFiltered prev raw).x * (accelFiltered prev raw).x +
      (accelFiltered prev raw).y * (accelFiltered prev raw).y +
      (accelFiltered prev raw).z * (accelFiltered prev raw).z) ≠ 0 := h
  have hpos : 0 < Real.sqrt ((accelFiltered prev raw).x * (accelFiltered prev raw).x +
      (accelFiltered prev raw).y * (accelFiltered prev raw).y +
      (accelFiltered prev raw).z * (accelFiltered prev raw).z) :=
    lt_of_le_of_ne (Real.sqrt_nonneg _) (Ne.symm hne)
  have hmul : Real.sqrt ((accelFiltered prev raw).x * (accelFiltered prev raw).x +
        (accelFiltered prev raw).y * (accelFiltered prev raw).y +
        (accelFiltered prev raw).z * (accelFiltered prev raw).z) *
      Real.sqrt ((accelFiltered prev raw).x * (accelFiltered prev raw).x +
        (accelFiltered prev raw).y * (accelFiltered prev raw).y +
        (accelFiltered prev raw).z * (accelFiltered prev raw).z) =
      (accelFiltered prev raw).x * (accelFiltered prev raw).x +
      (accelFiltered prev raw).y * (accelFiltered prev raw).y +
      (accelFiltered prev raw).z * (accelFiltered prev raw).z :=
    Real.mul_self_sqrt hS
  simp only [accelStep, if_neg hne]
  unfold vecMag
  have harg : (accelFiltered prev raw).x /
        Real.sqrt ((accelFiltered prev raw).x * (accelFiltered prev raw).x +
          (accelFiltered prev raw).y * (accelFiltered prev raw).y +
          (accelFiltered prev raw).z * (accelFiltered prev raw).z) *
        ((accelFiltered prev raw).x /
          Real.sqrt ((accelFiltered prev raw).x * (accelFiltered prev raw).x +
            (accelFiltered prev raw).y * (accelFiltered prev raw).y +
            (accelFiltered prev raw).z * (accelFiltered prev raw).z)) +
      (accelFiltered prev raw).y /
        Real.sqrt ((accelFiltered prev raw).x * (accelFiltered prev raw).x +
          (accelFiltered prev raw).y * (accelFiltered prev raw).y +
          (accelFiltered prev raw).z * (accelFiltered prev raw).z) *
        ((accelFiltered prev raw).y /
          Real.sqrt ((accelFiltered prev raw).x * (accelFiltered prev raw).x +
            (accelFiltered prev raw).y * (accelFiltered prev raw).y +
            (accelFiltered prev raw).z * (accelFiltered prev raw).z)) +
      (accelFiltered prev raw).z /
        Real.sqrt ((accelFiltered prev raw).x * (accelFiltered prev raw).x +
          (accelFiltered prev raw).y * (accelFiltered prev raw).y +
          (accelFiltered prev raw).z * (accelFiltered prev raw).z) *
        ((accelFiltered prev raw).z /
          Real.sqrt ((accelFiltered prev raw).x * (accelFiltered prev raw).x +
            (accelFiltered prev raw).y * (accelFiltered prev raw).y +
            (accelFiltered prev raw).z * (accelFiltered prev raw).z)) = 1 := by
    have hSpos : 0 < (accelFiltered prev raw).x * (accelFiltered prev raw).x +
        (accelFiltered prev raw).y * (accelFiltered prev raw).y +
        (accelFiltered prev raw).z * (accelFiltered prev raw).z := by
      nlinarith [hpos, hmul]
    rw [div_mul_div_comm, div_mul_div_comm, div_mul_div_comm, div_add_div_same,
      div_add_div_same, hmul, div_self (ne_of_gt hSpos)]
  rw [harg, Real.sqrt_one]

/-- Witness for C8's amended claim: a first raw sample `(0, 1, 0)` has a
nonzero filtered vector and is conditioned to a unit vector. -/
theorem accelStep_unit_witness :
    vecMag (accelFiltered none ⟨0, 1, 0⟩) ≠ 0 ∧
      vecMag (accelStep none ⟨0, 1, 0⟩) = 1 := by
  have hf : accelFiltered none ⟨0, 1, 0⟩ = ⟨0, 1, 0⟩ := by
    simp only [accelFiltered, Option.getD_none]
    norm_num
  have hmag : vecMag (accelFiltered none ⟨0, 1, 0⟩) ≠ 0 := by
    rw [hf]
    unfold vecMag
    norm_num
  exact ⟨hmag, accelStep_unit_of_nonzero none ⟨0, 1, 0⟩ hmag⟩

/-- C10: with the display-accuracy EMA accumulator starting at 0, the very
first processed magnetometer sample of a subscription emits accuracy
`round(0.25·(0.5·fieldScore + 0.3·varianceScore + 0.2·tiltScore))`, which is
at most 25. -/
theorem first_sample_accuracy (v : Vec3) (a : Option Vec3) :
    (tick false true (initState a) v).2.accuracy =
      jsRound (0.25 * (0.5 * fieldScoreOf (Real.sqrt (v.x * v.x + v.y * v.y + v.z * v.z)) +
        0.3 * varianceScoreOf 0 + 0.2 * tiltScoreOf (tiltMetrics a).tiltDeg)) ∧
    (tick false true (initState a) v).2.accuracy ≤ 25 := by
  have key : (tick false true (initState a) v).2.accuracy =
      jsRound (0.25 * (0.5 * fieldScoreOf (Real.sqrt (v.x * v.x + v.y * v.y + v.z * v.z)) +
        0.3 * varianceScoreOf 0 + 0.2 * tiltScoreOf (tiltMetrics a).tiltDeg)) := by
    simp only [tick, initState, List.nil_append, List.length_cons, List.length_nil]
    norm_num
  refine ⟨key, ?_⟩
  rw [key]
  obtain ⟨hf0, hf1⟩ := fieldScoreOf_mem (Real.sqrt (v.x * v.x + v.y * v.y + v.z * v.z))
  obtain ⟨hv0, hv1⟩ := varianceScoreOf_mem (le_refl (0 : ℝ))
  obtain ⟨ht0, ht1⟩ := tiltScoreOf_mem (tiltMetrics a).tiltDeg
  unfold jsRound
  rw [Int.floor_le_iff]
  push_cast
  nlinarith

/-! ### Concrete two-tick trace: a valid sample followed by the zero vector -/

theorem calculateHeading_eq (x y z : ℝ) : calculateHeading x y z =
    (if jsMod (90 - atan2 y x * 180 / Real.pi) 360 < 0
      then jsMod (90 - atan2 y x * 180 / Real.pi) 360 + 360
      else jsMod (90 - atan2 y x * 180 / Real.pi) 360) := rfl

theorem calculateHeading_north {m : ℝ} (h : 0 < m) : calculateHeading 0 m 0 = 0 := by
  have hπ : Real.pi ≠ 0 := Real.pi_ne_zero
  rw [calculateHeading_eq, atan2_pos_zero h,
    show (90 : ℝ) - Real.pi / 2 * 180 / Real.pi = 0 by field_simp; ring,
    jsMod_small le_rfl (by norm_num)]
  norm_num

theorem calculateHeading_zero_vec : calculateHeading 0 0 0 = 90 := by
  rw [calculateHeading_eq, atan2_zero_of_nonneg le_rfl,
    show (90 : ℝ) - 0 * 180 / Real.pi = 90 by rw [zero_mul, zero_div]; ring,
    jsMod_small (by norm_num) (by norm_num)]
  norm_num

theorem smoothAdd_nil_zero : SmoothingFilter.add 8 [] 0 = ([0], 0) := by
  simp only [SmoothingFilter.add, List.nil_append, List.length_cons, List.length_nil]
  norm_num [atan2_zero_of_nonneg]

theorem smoothAdd_zero_ninety : SmoothingFilter.add 8 [0] 90 = ([0, 90], 45) := by
  have h90 : (90 : ℝ) * Real.pi / 180 = Real.pi / 2 := by ring
  simp only [SmoothingFilter.add, List.cons_append, List.nil_append,
    List.length_cons, List.length_nil]
  norm_num [h90, Real.sin_pi_div_two, Real.cos_pi_div_two]
  rw [atan2_diag (by norm_num : (0:ℝ) < 1 / 2)]
  rw [show Real.pi / 4 * 180 / Real.pi = 45 by field_simp; ring]
  norm_num

theorem stepLimit_clamp_ex : stepLimit 0 45 20 none none = 20 := by
  have hδ : shortestDelta 45 0 = 45 := by
    unfold shortestDelta
    rw [show (45 : ℝ) - 0 + 540 = 585 by norm_num,
      jsMod_eval 1 (by norm_num) (by norm_num) (by norm_num) (by norm_num)]
    norm_num
  have hm : maxStepOf 20 none none = 20 := by
    simp only [maxStepOf]
    rw [if_neg (show ¬ (none : Option Bool) = some true by simp)]
    norm_num
  simp only [stepLimit]
  rw [hδ, hm, if_pos (by rw [abs_of_pos (by norm_num : (0:ℝ) < 45)]; norm_num),
    Real.sign_of_pos (by norm_num : (0:ℝ) < 45), show (0:ℝ) + 1 * 20 = 20 by norm_num]
  exact jsNormalize_small (by norm_num) (by norm_num)

theorem shortestDelta_twenty : shortestDelta 20 0 = 20 := by
  unfold shortestDelta
  rw [show (20 : ℝ) - 0 + 540 = 560 by norm_num,
    jsMod_eval 1 (by norm_num) (by norm_num) (by norm_num) (by norm_num)]
  norm_num

theorem varianceScoreOf_sqrt200 : varianceScoreOf (Real.sqrt 200) = 0 := by
  unfold varianceScoreOf
  have h2 : (2 : ℝ) ≤ Real.sqrt 200 :=
    (Real.le_sqrt (by norm_num) (by norm_num)).mpr (by norm_num)
  have hmin : min (100 : ℝ) (Real.sqrt 200 * 50) = 100 := min_eq_left (by nlinarith)
  rw [hmin]
  norm_num

/-- First tick of the trace: the valid sample `(0, 20, 0)` from a fresh state. -/
theorem tickA1 : tick false true (initState none) ⟨0, 20, 0⟩ =
    (⟨[0], none, [20], some 20, 50 / 3, 0, some 0⟩,
     ⟨0, 17, false, "North", "N", 0, none, none, none, none, 0, 20, 0⟩) := by
  have h0360 : jsMod (0 : ℝ) 360 = 0 := jsMod_small le_rfl (by norm_num)
  have hch : calculateHeading 0 20 0 = 0 := calculateHeading_north (by norm_num)
  have hm400 : Real.sqrt (400 : ℝ) = 20 := by
    rw [show (400 : ℝ) = 20 ^ 2 by norm_num, Real.sqrt_sq (by norm_num : (0:ℝ) ≤ 20)]
  have hround17 : jsRound (50 / 3 : ℝ) = 17 := jsRound_eval 17 (by norm_num) (by norm_num)
  have hround0 : jsRound (0 : ℝ) = 0 := jsRound_eval 0 (by norm_num) (by norm_num)
  simp only [tick, initState, resolveRawHeading, hch, h0360,
    List.nil_append, List.length_cons, List.length_nil]
  norm_num [hm400, smoothAdd_nil_zero, fieldScoreOf, varianceScoreOf, tiltScoreOf,
    tiltMetrics, rotationUpdate, getCardinalDirection, hround17, hround0, Prod.ext_iff]

/-- Second tick of the trace: the malformed zero-vector sample. -/
theorem tickA2 : tick false true ⟨[0], none, [20], some 20, 50 / 3, 0, some 0⟩ ⟨0, 0, 0⟩ =
    (⟨[0, 90], none, [20, 0], some 18, 20, 20, some 20⟩,
     ⟨20, 20, false, "North", "N", 20, none, none, none, none, 0, 0, 0⟩) := by
  have h90360 : jsMod (90 : ℝ) 360 = 90 := jsMod_small (by norm_num) (by norm_num)
  have hround20 : jsRound (20 : ℝ) = 20 := jsRound_eval 20 (by norm_num) (by norm_num)
  simp only [tick, resolveRawHeading, calculateHeading_zero_vec, h90360,
    List.cons_append, List.nil_append, List.length_cons, List.length_nil]
  norm_num [smoothAdd_zero_ninety, varianceScoreOf_sqrt200, fieldScoreOf, tiltScoreOf,
    tiltMetrics, rotationUpdate, getCardinalDirection, hround20, Prod.ext_iff,
    stepLimit_clamp_ex, shortestDelta_twenty]

/-- C7 counterexample: the zero-vector magnetometer sample arriving after a
valid estimate is not skipped — the callback runs to its unconditional
`setState`, emitting a new estimate whose heading (20°) differs from the
previous estimate's heading (0°). -/
theorem malformed_sample_emits :
    (tick false true (tick false true (initState none) ⟨0, 20, 0⟩).1 ⟨0, 0, 0⟩).2.heading = 20 ∧
    (tick false true (initState none) ⟨0, 20, 0⟩).2.heading = 0 ∧
    (tick false true (tick false true (initState none) ⟨0, 20, 0⟩).1 ⟨0, 0, 0⟩).2 ≠
      (tick false true (initState none) ⟨0, 20, 0⟩).2 := by
  have hs : (tick false true (initState none) ⟨0, 20, 0⟩).1 =
      ⟨[0], none, [20], some 20, 50 / 3, 0, some 0⟩ := by rw [tickA1]
  have hd1 : (tick false true (initState none) ⟨0, 20, 0⟩).2 =
      ⟨0, 17, false, "North", "N", 0, none, none, none, none, 0, 20, 0⟩ := by rw [tickA1]
  rw [hs, tickA2, hd1]
  refine ⟨rfl, rfl, ?_⟩
  intro hcontra
  simp only [CompassData.mk.injEq] at hcontra
  exact absurd hcontra.1 (by norm_num)

/-- C7 amended: a malformed (zero-vector) sample is processed rather than
skipped: `calculateHeading` maps it to 90° (since `atan2(0,0) = 0`), the
callback emits an estimate for that tick, and the emitted fields can change. -/
theorem malformed_sample_processed :
    calculateHeading 0 0 0 = 90 ∧
    (tick false true (tick false true (initState none) ⟨0, 20, 0⟩).1 ⟨0, 0, 0⟩).2 =
      ⟨20, 20, false, "North", "N", 20, none, none, none, none, 0, 0, 0⟩ := by
  have hs : (tick false true (initState none) ⟨0, 20, 0⟩).1 =
      ⟨[0], none, [20], some 20, 50 / 3, 0, some 0⟩ := by rw [tickA1]
  rw [hs, tickA2]
  exact ⟨calculateHeading_zero_vec, rfl⟩

/-! ### Concrete four-tick trace reaching unrounded accuracy 60.2 -/

/-- Constant magnetometer magnitude used in the four-tick trace. -/
def c9m : ℝ := 115584 / 4375

/-- The per-tick combined accuracy score produced by that magnitude. -/
def c9c : ℝ := 77056 / 875

theorem fieldScoreOf_c9m : fieldScoreOf c9m = 66612 / 875 := by
  unfold fieldScoreOf c9m
  norm_num

theorem smoothAdd_replicate_zero (k : ℕ) (hk : k ≤ 7) :
    SmoothingFilter.add 8 (List.replicate k (0 : ℝ)) 0 = (List.replicate (k + 1) 0, 0) := by
  have happ : (List.replicate k (0 : ℝ)) ++ [0] = List.replicate (k + 1) 0 :=
    (List.replicate_succ' _ _).symm
  have hcond : ¬ (8 < k + 1) := by omega
  have hne : ((k : ℝ) + 1) ≠ 0 := by positivity
  simp only [SmoothingFilter.add, happ, List.length_replicate, hcond, if_false,
    List.map_replicate, List.sum_replicate]
  norm_num [atan2_zero_of_nonneg, div_self, hne]

theorem shortestDelta_zero : shortestDelta 0 0 = 0 := by
  unfold shortestDelta
  rw [show (0 : ℝ) - 0 + 540 = 540 by norm_num,
    jsMod_eval 1 (by norm_num) (by norm_num) (by norm_num) (by norm_num)]
  norm_num

theorem stepLimit_still (acc : ℝ) : stepLimit 0 0 acc none none = 0 := by
  simp only [stepLimit]
  rw [shortestDelta_zero]
  have h10 := (maxStepOf_mem acc none none).1
  rw [if_neg (by rw [abs_zero]; linarith)]

/-- One generic step of the constant-sample trace: from a state holding `k`
copies of heading 0 and magnitude `c9m` with display accuracy `d`, the sample
`(0, c9m, 0)` advances the display accuracy to `0.25·c9c + 0.75·d`. -/
theorem tick_c9 (k : ℕ) (hk7 : k ≤ 7) (d : ℝ) :
    tick false true ⟨List.replicate k 0, none, List.replicate k c9m, some c9m, d, 0, some 0⟩
        ⟨0, c9m, 0⟩ =
      (⟨List.replicate (k + 1) 0, none, List.replicate (k + 1) c9m, some c9m,
        0.25 * c9c + 0.75 * d, 0, some 0⟩,
       ⟨0, jsRound (0.25 * c9c + 0.75 * d),
        if 60 < 0.25 * c9c + 0.75 * d then true else false,
        "North", "N", 0, none, none, none, none, 0, c9m, 0⟩) := by
  have hm_pos : (0 : ℝ) < c9m := by norm_num [c9m]
  have hch : calculateHeading 0 c9m 0 = 0 := calculateHeading_north hm_pos
  have h0360 : jsMod (0 : ℝ) 360 = 0 := jsMod_small le_rfl (by norm_num)
  have hmagsq : Real.sqrt ((0 : ℝ) * 0 + c9m * c9m + 0 * 0) = c9m := by
    rw [show (0 : ℝ) * 0 + c9m * c9m + 0 * 0 = c9m ^ 2 by ring, Real.sqrt_sq hm_pos.le]
  have hmagsq2 : Real.sqrt (c9m * c9m) = c9m := Real.sqrt_mul_self hm_pos.le
  have hhist : List.replicate k c9m ++ [c9m] = List.replicate (k + 1) c9m :=
    (List.replicate_succ' _ _).symm
  have hcond60 : ¬ (60 < k + 1) := by omega
  have hne : ((k : ℝ) + 1) ≠ 0 := by positivity
  have hmax : max (k + 1) 1 = k + 1 := Nat.max_eq_left (by omega)
  have hmean0 : ((k : ℝ) * c9m + c9m) / ((k : ℝ) + 1) = c9m := by
    field_simp
    ring
  have hdev : c9m - ((k : ℝ) * c9m + c9m) / ((k : ℝ) + 1) = 0 := by
    rw [hmean0]
    ring
  have hema : 1 / 10 * c9m + 9 / 10 * c9m = c9m := by ring
  have hmagsq3 : Real.sqrt (c9m ^ 2) = c9m := Real.sqrt_sq hm_pos.le
  have hr0 : jsRound (0 : ℝ) = 0 := jsRound_eval 0 (by norm_num) (by norm_num)
  simp only [tick, resolveRawHeading, hch, h0360, hhist]
  norm_num [smoothAdd_replicate_zero k hk7, hhist, hcond60, hmax, List.map_replicate,
    List.sum_replicate, List.length_replicate, hmagsq, hmagsq2, hmagsq3, hdev, hema,
    hne, fieldScoreOf_c9m, varianceScoreOf, tiltScoreOf, tiltMetrics, rotationUpdate,
    getCardinalDirection, stepLimit_still, shortestDelta_zero, hr0, Prod.ext_iff, c9c]

/-- First tick of the constant-sample trace from a fresh subscription. -/
theorem tick_c9_first :
    tick false true (initState none) ⟨0, c9m, 0⟩ =
      (⟨List.replicate 1 (0 : ℝ), none, List.replicate 1 c9m, some c9m,
        0.25 * c9c, 0, some 0⟩,
       ⟨0, jsRound (0.25 * c9c), if 60 < 0.25 * c9c then true else false,
        "North", "N", 0, none, none, none, none, 0, c9m, 0⟩) := by
  have hm_pos : (0 : ℝ) < c9m := by norm_num [c9m]
  have hch : calculateHeading 0 c9m 0 = 0 := calculateHeading_north hm_pos
  have h0360 : jsMod (0 : ℝ) 360 = 0 := jsMod_small le_rfl (by norm_num)
  have hmagsq : Real.sqrt ((0 : ℝ) * 0 + c9m * c9m + 0 * 0) = c9m := by
    rw [show (0 : ℝ) * 0 + c9m * c9m + 0 * 0 = c9m ^ 2 by ring, Real.sqrt_sq hm_pos.le]
  have hmagsq2 : Real.sqrt (c9m * c9m) = c9m := Real.sqrt_mul_self hm_pos.le
  have hmagsq3 : Real.sqrt (c9m ^ 2) = c9m := Real.sqrt_sq hm_pos.le
  have hr0 : jsRound (0 : ℝ) = 0 := jsRound_eval 0 (by norm_num) (by norm_num)
  simp only [tick, initState, resolveRawHeading, hch, h0360, List.nil_append]
  norm_num [smoothAdd_nil_zero, List.replicate_one, hmagsq, hmagsq2, hmagsq3,
    fieldScoreOf_c9m, varianceScoreOf, tiltScoreOf, tiltMetrics, rotationUpdate,
    getCardinalDirection, hr0, Prod.ext_iff, c9c]

/-- C9 counterexample: after four identical well-formed samples the engine
emits an estimate with unrounded accuracy 60.2 — its integer accuracy field is
60 while `isCalibrated` is `true`, so `isCalibrated` is not equivalent to the
reported accuracy exceeding 60. -/
theorem isCalibrated_mismatch :
    (tick false true (tick false true (tick false true (tick false true
        (initState none) ⟨0, c9m, 0⟩).1 ⟨0, c9m, 0⟩).1 ⟨0, c9m, 0⟩).1
        ⟨0, c9m, 0⟩).2.isCalibrated = true ∧
    (tick false true (tick false true (tick false true (tick false true
        (initState none) ⟨0, c9m, 0⟩).1 ⟨0, c9m, 0⟩).1 ⟨0, c9m, 0⟩).1
        ⟨0, c9m, 0⟩).2.accuracy = 60 ∧
    ¬ ((tick false true (tick false true (tick false true (tick false true
        (initState none) ⟨0, c9m, 0⟩).1 ⟨0, c9m, 0⟩).1 ⟨0, c9m, 0⟩).1
        ⟨0, c9m, 0⟩).2.isCalibrated = true ↔
      60 < (tick false true (tick false true (tick false true (tick false true
        (initState none) ⟨0, c9m, 0⟩).1 ⟨0, c9m, 0⟩).1 ⟨0, c9m, 0⟩).1
        ⟨0, c9m, 0⟩).2.accuracy) := by
  have hacc : jsRound (301 / 5 : ℝ) = 60 := jsRound_eval 60 (by norm_num) (by norm_num)
  have t1 := tick_c9 1 (by omega) (2752 / 125)
  have t2 := tick_c9 2 (by omega) (4816 / 125)
  have t3 := tick_c9 3 (by omega) (6364 / 125)
  norm_num [c9c] at t1 t2 t3
  norm_num [tick_c9_first, t1, t2, t3, c9c, hacc]

/-- C9 amended: `isCalibrated` compares the unrounded smoothed accuracy with
60, while the integer accuracy field is that value rounded; on every emitted
estimate `isCalibrated = (displayAcc > 60)` and `accuracy = round(displayAcc)`. -/
theorem isCalibrated_iff_unrounded (af uc : Bool) (s : EngineState) (v : Vec3) :
    ((tick af uc s v).2.isCalibrated = true ↔ 60 < (tick af uc s v).1.displayAcc) ∧
    (tick af uc s v).2.accuracy = jsRound ((tick af uc s v).1.displayAcc) := by
  refine ⟨?_, rfl⟩
  show (if 60 < (tick af uc s v).1.displayAcc then true else false) = true ↔
    60 < (tick af uc s v).1.displayAcc
  split_ifs with h
  · simp [h]
  · simp [h]

end Compass

end
